import Mathlib

/-!
Verification of the gbc emulator frontend (`lib.rs`) and its debugger
(`debug.rs`) against the natural-language specification.

The repository exposes a `Gameboy` struct whose `frame` method drives the
CPU, PPU, DMA engine and timer in a cycle-budgeted loop.  The individual
component modules (cpu, ppu, timer, dma, joypad, cartridge, memory) are not
part of the sources under verification; they are modelled from the spec as
an abstract component interface (`Machine`), while `frame`, `init`,
`insert`, `eject`, `reset` and the whole debugger are translated directly
from the Rust sources.
-/

namespace Gbc

/-- Interrupt kinds, in vector-bit order (spec 4.5:
VBlank=0, LCD STAT=1, Timer=2, Serial=3, Joypad=4). -/
inductive Interrupt where
  | vblank
  | lcdStat
  | timer
  | serial
  | joypad
  deriving DecidableEq, Repr

/-- The eight joypad buttons (from `joypad.rs`, used by `emu/src/main.rs`). -/
inductive JoypadInput where
  | a
  | b
  | select
  | start
  | up
  | down
  | left
  | right
  deriving DecidableEq, Repr

/-- A joypad event: a button press or release (spec 6). -/
inductive JoypadEvent where
  | down (i : JoypadInput)
  | up (i : JoypadInput)
  deriving DecidableEq, Repr

/-- Modelled from the spec: the error surface of the missing `error.rs`
(spec 6: InvalidRom, UnsupportedMbc(code), IoError(host), BadChecksum). -/
inductive GbError where
  | invalidRom
  | unsupportedMbc (code : Nat)
  | ioErr
  | badChecksum
  deriving DecidableEq, Repr

/-- One observable action performed by the body of `Gameboy::frame`.
The trace records every component call of the scheduler loop, in program
order, together with the argument each call received. -/
inductive Ev where
  /-- A call to `cpu.step()` that returned `cyclesTaken` T-cycles. -/
  | cpu (cyclesTaken : Nat)
  /-- A call to `ppu.step(arg, speed, interrupts)`; `ints` is the list of
  interrupts the PPU pushed. -/
  | ppu (arg : Nat) (speed : Bool) (ints : List Interrupt)
  /-- The read of `io.serial_interrupt()` (its push is commented out). -/
  | serialCheck (flag : Bool)
  /-- A call to `cpu.dma_step(cyclesTaken)`. -/
  | dma (cyclesTaken : Nat)
  /-- A call to `timer.step(cyclesTaken)` returning `fired`. -/
  | timer (cyclesTaken : Nat) (fired : Bool)
  /-- A call to `cpu.trigger_interrupt(i)`. -/
  | trigger (i : Interrupt)
  /-- The call to `joypad.handle_event(e)` returning `res`. -/
  | joypadHandled (e : JoypadEvent) (res : Bool)
  deriving DecidableEq, Repr

/-- Modelled from the spec: the interface of the component modules that are
not part of the verified sources (cpu.rs, ppu.rs, timer.rs, dma.rs,
joypad.rs, cartridge.rs).  `S` is the state of the CPU object graph (the
CPU owns the memory bus, which owns PPU, timer, DMA and joypad), `FB` the
frame-buffer type, `Path` a ROM path and `Cart` a parsed cartridge.
Each field is one operation `Gameboy::frame` or the constructors invoke:
`speed`/`cycleTime` are the CPU speed query and T-cycle duration (spec:
one T-cycle is about 238 ns at normal speed), `cpuStep` runs one CPU step
returning the T-cycles taken (spec 4.5; 0 cycles when stopped), `ppuStep`
catches the PPU up and pushes interrupts (spec 4.6), `serialInterrupt`
polls the stubbed serial port, `dmaStep`/`timerStep` advance DMA and timer
(`timerStep` reports a timer interrupt request, spec 4.8), `handleEvent`
updates the joypad returning whether a selected line went low (spec 4.9),
and `fromFile`/`newCpu`/`resetCpu` are the fallible constructors used by
`init`, `insert`, `eject` and `reset`. -/
structure Machine : Type 1 where
  S : Type
  FB : Type
  Path : Type
  Cart : Type
  speed : S → Bool
  cycleTime : S → Nat
  cpuStep : S → S × Nat
  ppuStep : S → Nat → Bool → S × List Interrupt
  serialInterrupt : S → S × Bool
  dmaStep : S → Nat → S
  timerStep : S → Nat → S × Bool
  triggerInterrupt : S → Interrupt → S
  handleEvent : S → JoypadEvent → S × Bool
  frameBuffer : S → FB
  fromFile : Path → Except GbError Cart
  newCpu : Option Cart → Except GbError S
  resetCpu : S → Except GbError S

/-- Modelled from the spec: the PPU requests only VBlank and STAT
interrupts (spec 4.6). -/
def PpuSane (m : Machine) : Prop :=
  ∀ s a sp, ∀ i ∈ (m.ppuStep s a sp).2, i = Interrupt.vblank ∨ i = Interrupt.lcdStat

/-- The `Gameboy` struct of `lib.rs` (the `debug` feature disabled):
a CPU and the number of frames executed. -/
structure Gameboy (m : Machine) where
  cpu : m.S
  frameCounter : Nat

/-- `Gameboy::FRAME_DURATION` from `lib.rs`, in nanoseconds. -/
def FRAME_DURATION : Nat := 16666666

/-- The `while cycle < num_cycles` loop of `Gameboy::frame`, translated
from `lib.rs` lines 76-115.  Each iteration runs the CPU, catches the PPU
up to `cycle + cycles_taken`, polls the serial port (whose interrupt push
is commented out in the source), steps DMA and the timer by
`cycles_taken`, delivers the collected interrupts and advances `cycle`.
The `fuel` argument bounds the number of iterations: the Rust loop has no
such bound, and `none` models a run in which `fuel` iterations did not
reach the budget (with `fuel = numCycles` this happens only if some CPU
step took 0 cycles, in which case the Rust loop never terminates).
The returned values are the final CPU state, the final `cycle` counter and
the trace of component calls. -/
def frameLoop (m : Machine) (sp : Bool) (numCycles : Nat) :
    Nat → Nat → m.S → Option (m.S × Nat × List Ev)
  | 0, cycle, s => if cycle < numCycles then none else some (s, cycle, [])
  | fuel + 1, cycle, s =>
    if cycle < numCycles then
      let c := (m.cpuStep s).2
      let pp := m.ppuStep (m.cpuStep s).1 (cycle + c) sp
      let se := m.serialInterrupt pp.1
      let ti := m.timerStep (m.dmaStep se.1 c) c
      let ints2 := pp.2 ++ (if ti.2 then [Interrupt.timer] else [])
      (frameLoop m sp numCycles fuel (cycle + c)
          (ints2.foldl m.triggerInterrupt ti.1)).map
        (fun t => (t.1, t.2.1,
          Ev.cpu c :: Ev.ppu (cycle + c) sp pp.2 :: Ev.serialCheck se.2 ::
          Ev.dma c :: Ev.timer c ti.2 :: (ints2.map Ev.trigger ++ t.2.2)))
    else some (s, cycle, [])

/-- The value returned by the embedded `Gameboy::frame`, instrumented with
the final cycle counter and the trace of component calls. -/
structure FrameResult (m : Machine) where
  gb : Gameboy m
  fb : m.FB
  cycles : Nat
  trace : List Ev

/-- `Gameboy::frame` from `lib.rs` lines 69-128: compute the cycle budget
`FRAME_DURATION / cycle_time`, run the scheduler loop, then handle the
optional joypad event (triggering a Joypad interrupt exactly when
`handle_event` returns true), bump `frame_counter` and return the frame
buffer.  `none` models a loop that never reaches the budget. -/
def frame (m : Machine) (gb : Gameboy m) (joypadEvent : Option JoypadEvent) :
    Option (FrameResult m) :=
  (frameLoop m (m.speed gb.cpu) (FRAME_DURATION / m.cycleTime gb.cpu)
      (FRAME_DURATION / m.cycleTime gb.cpu) 0 gb.cpu).map
    (fun t =>
      match joypadEvent with
      | none =>
        { gb := { cpu := t.1, frameCounter := gb.frameCounter + 1 },
          fb := m.frameBuffer t.1, cycles := t.2.1, trace := t.2.2 }
      | some e =>
        let he := m.handleEvent t.1 e
        if he.2 then
          let s2 := m.triggerInterrupt he.1 Interrupt.joypad
          { gb := { cpu := s2, frameCounter := gb.frameCounter + 1 },
            fb := m.frameBuffer s2, cycles := t.2.1,
            trace := t.2.2 ++ [Ev.joypadHandled e true, Ev.trigger Interrupt.joypad] }
        else
          { gb := { cpu := he.1, frameCounter := gb.frameCounter + 1 },
            fb := m.frameBuffer he.1, cycles := t.2.1,
            trace := t.2.2 ++ [Ev.joypadHandled e false] })

/-- `Gameboy::init` from `lib.rs` lines 42-64: build the optional
cartridge, build the CPU, start with `frame_counter = 0`; any construction
error is propagated. -/
def init (m : Machine) (romPath : Option m.Path) : Except GbError (Gameboy m) :=
  match romPath with
  | some p =>
    match m.fromFile p with
    | Except.error e => Except.error e
    | Except.ok cart =>
      match m.newCpu (some cart) with
      | Except.error e => Except.error e
      | Except.ok cpu => Except.ok { cpu := cpu, frameCounter := 0 }
  | none =>
    match m.newCpu none with
    | Except.error e => Except.error e
    | Except.ok cpu => Except.ok { cpu := cpu, frameCounter := 0 }

/-- `Gameboy::insert` from `lib.rs` lines 131-136. -/
def insert (m : Machine) (_gb : Gameboy m) (p : m.Path) : Except GbError (Gameboy m) :=
  match m.fromFile p with
  | Except.error e => Except.error e
  | Except.ok cart =>
    match m.newCpu (some cart) with
    | Except.error e => Except.error e
    | Except.ok cpu => Except.ok { cpu := cpu, frameCounter := 0 }

/-- `Gameboy::eject` from `lib.rs` lines 139-142; the source unwraps
`Cpu::new(None)`, so a constructor error is a panic, modelled as `none`. -/
def eject (m : Machine) (_gb : Gameboy m) : Option (Gameboy m) :=
  match m.newCpu none with
  | Except.error _ => none
  | Except.ok cpu => some { cpu := cpu, frameCounter := 0 }

/-- `Gameboy::reset` from `lib.rs` lines 145-149: zero the frame counter
and reset the CPU. -/
def reset (m : Machine) (gb : Gameboy m) : Except GbError (Gameboy m) :=
  match m.resetCpu gb.cpu with
  | Except.error e => Except.error e
  | Except.ok cpu => Except.ok { cpu := cpu, frameCounter := 0 }

/-- Run `n` consecutive `frame` calls with no joypad input. -/
def frameN (m : Machine) : Nat → Gameboy m → Option (Gameboy m)
  | 0, gb => some gb
  | n + 1, gb =>
    match frame m gb none with
    | none => none
    | some r => frameN m n r.gb

/-! ### Trace observers -/

/-- T-cycles reported by a trace event when it is a CPU step. -/
def evCpuDelta : Ev → Nat
  | Ev.cpu c => c
  | _ => 0

/-- T-cycles passed to the DMA step by a trace event. -/
def evDmaDelta : Ev → Nat
  | Ev.dma c => c
  | _ => 0

/-- T-cycles passed to the timer step by a trace event. -/
def evTimerDelta : Ev → Nat
  | Ev.timer c _ => c
  | _ => 0

/-- Total T-cycles the CPU advanced over a trace. -/
def cpuSum (evs : List Ev) : Nat := (evs.map evCpuDelta).sum

/-- Total T-cycles passed to the DMA step over a trace. -/
def dmaSum (evs : List Ev) : Nat := (evs.map evDmaDelta).sum

/-- Total T-cycles passed to the timer step over a trace. -/
def timerSum (evs : List Ev) : Nat := (evs.map evTimerDelta).sum

/-- The list of per-iteration CPU cycle deltas of a trace. -/
def cpuDeltas (evs : List Ev) : List Nat :=
  evs.filterMap fun e =>
    match e with
    | Ev.cpu c => some c
    | _ => none

/-- True for every event the scheduler loop itself can emit (everything
except the post-loop joypad handling). -/
def isLoopEv : Ev → Bool
  | Ev.joypadHandled _ _ => false
  | _ => true

/-- Structural well-formedness of a scheduler-loop trace, starting at
cycle counter `cycle` with `pending` interrupts awaiting delivery.
It holds exactly when the trace is a sequence of iterations of the shape
`cpu, ppu, serialCheck, dma, timer, trigger*` in which the PPU receives
the accumulated cycle count `cycle + cyclesTaken`, DMA and timer receive
exactly `cyclesTaken`, and the triggers deliver precisely the interrupts
the PPU pushed followed by the timer interrupt when the timer fired,
before the next CPU step. -/
def loopOk : Nat → List Interrupt → List Ev → Bool
  | _, [], [] => true
  | cycle, [], Ev.cpu c :: Ev.ppu a _ ints :: Ev.serialCheck _ ::
      Ev.dma c1 :: Ev.timer c2 f :: rest =>
    (a == cycle + c) && (c1 == c) && (c2 == c) &&
      loopOk (cycle + c) (ints ++ (if f then [Interrupt.timer] else [])) rest
  | cycle, i :: is, Ev.trigger j :: rest => (i == j) && loopOk cycle is rest
  | _, _, _ => false

/-- The exact formalisation of the claim that each PPU step receives the
per-iteration cycle delta: every `Ev.cpu c` immediately followed by an
`Ev.ppu a _ _` must have `a = c`. -/
def ppuArgsEqualDeltas : List Ev → Bool
  | Ev.cpu c :: Ev.ppu a _ _ :: rest => (a == c) && ppuArgsEqualDeltas rest
  | _ :: rest => ppuArgsEqualDeltas rest
  | [] => true

/-- Shape of the post-loop part of a frame trace: either no joypad event,
or one handled event, followed by a Joypad interrupt trigger exactly when
`handle_event` returned true. -/
def joypadTailOk : List Ev → Bool
  | [] => true
  | [Ev.joypadHandled _ false] => true
  | [Ev.joypadHandled _ true, Ev.trigger Interrupt.joypad] => true
  | _ => false

/-- The trace of a frame run, or `[]` when the run does not finish. -/
def frameTrace (m : Machine) (gb : Gameboy m) (ev : Option JoypadEvent) : List Ev :=
  match frame m gb ev with
  | some r => r.trace
  | none => []

/-! ### Concrete machines for closed evaluation -/

/-- A concrete instantiation of the component interface: every CPU step
takes one T-cycle, the PPU pushes no interrupts, the timer never fires,
and the cycle time gives a frame budget of two cycles
(16666666 / 8333333 = 2). -/
def mOne : Machine where
  S := Unit
  FB := Unit
  Path := Unit
  Cart := Unit
  speed := fun _ => false
  cycleTime := fun _ => 8333333
  cpuStep := fun _ => ((), 1)
  ppuStep := fun _ _ _ => ((), [])
  serialInterrupt := fun _ => ((), false)
  dmaStep := fun _ _ => ()
  timerStep := fun _ _ => ((), false)
  triggerInterrupt := fun s _ => s
  handleEvent := fun _ _ => ((), true)
  frameBuffer := fun _ => ()
  fromFile := fun _ => Except.ok ()
  newCpu := fun _ => Except.ok ()
  resetCpu := fun _ => Except.ok ()

/-- A fresh `Gameboy` over `mOne`. -/
def gbOne : Gameboy mOne := { cpu := (), frameCounter := 0 }

/-- The machine `mOne` with a stopped CPU: every step takes 0 T-cycles
(spec 4.5 step 1), budget of one cycle. -/
def mStop : Machine :=
  { mOne with cpuStep := fun _ => ((), 0), cycleTime := fun _ => 16666666 }

/-! ### Debugger (`debug.rs`) -/

/-- `debug::Mode` from `debug.rs`. -/
inductive Mode where
  | step
  | stepN (n : Nat)
  | cont
  deriving DecidableEq, Repr

/-- Modelled from the spec: the CPU operations the debugger invokes
(`cpu.rs` and `memory.rs` are not part of the verified sources).
`fetch` is the pure `cpu.fetch(None)` decode (spec 4.4: pure, does not
advance PC), `disassemble` the pure listing used by the `l` command,
`memRead`/`memWrite` the memory-bus accessors used by `p`/`w`, and
`resetCpu` the fallible `cpu.reset()` used by the `reset` command. -/
structure CpuIface : Type 1 where
  C : Type
  Inst : Type
  isHalted : C → Bool
  pc : C → Nat
  fetch : C → Inst × Nat × Nat
  disassemble : C → Nat → Option Nat → List (Inst × Nat)
  memRead : C → Nat → Nat
  memWrite : C → Nat → Nat → C
  resetCpu : C → Except GbError C

/-- The `Debugger` struct of `debug.rs`; the dump file is modelled as the
list of (pc, instruction) lines written so far, `none` when disabled. -/
structure Debugger (Inst : Type) where
  mode : Mode
  checks : Nat
  steps : Nat
  breakpoints : List (Nat × Bool)
  instructions : List (Inst × Nat)
  instructionDump : Option (List (Nat × Inst))

/-- `Debugger::new` from `debug.rs`. -/
def Debugger.new (Inst : Type) : Debugger Inst :=
  { mode := Mode.step, checks := 0, steps := 0, breakpoints := [],
    instructions := [], instructionDump := none }

/-- One CPU hook invocation made by the debugger. -/
inductive Hook where
  | fetch
  | disassemble (count : Nat) (start : Option Nat)
  | memRead (addr : Nat)
  | memWrite (addr : Nat) (value : Nat)
  | cpuReset
  deriving DecidableEq, Repr

/-- `Debugger::triggered` from `debug.rs` lines 37-87, instrumented with
the list of CPU hooks it performs.  The CPU is taken by shared reference
in the source, so the function cannot modify it; console printing is not
modelled.  `u32` subtraction is modelled as truncated `Nat` subtraction
(the release-build behaviour when no underflow occurs). -/
def triggered (cif : CpuIface) (d : Debugger cif.Inst) (cpu : cif.C) :
    Debugger cif.Inst × Bool × List Hook :=
  if cif.isHalted cpu then (d, false, [])
  else
    let pc := cif.pc cpu
    let inst := (cif.fetch cpu).1
    let d1 : Debugger cif.Inst :=
      { d with instructions := d.instructions ++ [(inst, pc)] }
    let d2 : Debugger cif.Inst :=
      match d1.instructionDump with
      | some lines => { d1 with instructionDump := some (lines ++ [(pc, inst)]) }
      | none => d1
    let d3 : Debugger cif.Inst := { d2 with checks := d2.checks + 1 }
    match d3.mode with
    | Mode.step => (d3, true, [Hook.fetch])
    | Mode.stepN n =>
      if d3.checks - d3.steps = n then
        ({ d3 with steps := d3.checks - 1 }, true, [Hook.fetch])
      else (d3, false, [Hook.fetch])
    | Mode.cont =>
      if d3.breakpoints.any (fun bp => bp.2 && pc == bp.1) then
        ({ d3 with steps := d3.checks - 1 }, true, [Hook.fetch])
      else (d3, false, [Hook.fetch])

/-! ### UTF-8 strings and `Debugger::parse_u16` -/

/-- The UTF-8 encoding of one character, as byte values. -/
def utf8Bytes (c : Char) : List Nat :=
  let n := c.toNat
  if n < 128 then [n]
  else if n < 2048 then [192 + n / 64, 128 + n % 64]
  else if n < 65536 then [224 + n / 4096, 128 + (n / 64) % 64, 128 + n % 64]
  else [240 + n / 262144, 128 + (n / 4096) % 64, 128 + (n / 64) % 64, 128 + n % 64]

/-- UTF-8 bytes of a character list (a Rust `&str` is UTF-8 bytes). -/
def charsBytes (cs : List Char) : List Nat := (cs.map utf8Bytes).flatten

/-- UTF-8 bytes of a string. -/
def strBytes (s : String) : List Nat := charsBytes s.data

/-- Value of an ASCII digit byte in the given radix (Rust
`char::to_digit`). -/
def digitVal (radix b : Nat) : Option Nat :=
  let v : Option Nat :=
    if 48 ≤ b ∧ b ≤ 57 then some (b - 48)
    else if 97 ≤ b ∧ b ≤ 122 then some (b - 97 + 10)
    else if 65 ≤ b ∧ b ≤ 90 then some (b - 65 + 10)
    else none
  match v with
  | some d => if d < radix then some d else none
  | none => none

/-- Digit-accumulation loop of Rust `from_str_radix` with overflow
checked against `maxVal` at each step. -/
def parseDigits (radix maxVal : Nat) : List Nat → Nat → Option Nat
  | [], acc => some acc
  | b :: bs, acc =>
    match digitVal radix b with
    | some d =>
      if acc * radix + d ≤ maxVal then parseDigits radix maxVal bs (acc * radix + d)
      else none
    | none => none

/-- Rust `uN::from_str_radix` on UTF-8 bytes: an optional leading plus
sign, then a nonempty digit string; any invalid digit or overflow yields
`none` (the `.ok()` of the source maps errors to `None`). -/
def fromStrRadix (radix maxVal : Nat) (bs : List Nat) : Option Nat :=
  let digits := match bs with
    | 43 :: rest => rest
    | _ => bs
  match digits with
  | [] => none
  | _ :: _ => parseDigits radix maxVal digits 0

/-- Rust `str::parse` for an unsigned integer type with maximum value
`maxVal` (decimal `from_str_radix`). -/
def rustParseUint (maxVal : Nat) (cs : List Char) : Option Nat :=
  fromStrRadix 10 maxVal (charsBytes cs)

/-- Maximum value of Rust `u32`. -/
def u32Max : Nat := 4294967295

/-- Maximum value of Rust `usize` (64-bit host). -/
def usizeMax : Nat := 18446744073709551615

/-- Whether `pat` is a prefix of `xs` (byte lists). -/
def startsWithSeq : List Nat → List Nat → Bool
  | [], _ => true
  | _ :: _, [] => false
  | a :: as2, b :: bs => a == b && startsWithSeq as2 bs

/-- Rust `str::contains` for a literal pattern, on UTF-8 bytes. -/
def containsSeq (hay pat : List Nat) : Bool :=
  match hay with
  | [] => startsWithSeq pat []
  | _ :: t => startsWithSeq pat hay || containsSeq t pat

/-- `Debugger::parse_u16` from `debug.rs` lines 89-99, on the UTF-8 bytes
of the input.  If the input contains `0x` or `0X` the source slices
`&input[2..]` and parses it as hexadecimal, otherwise it parses the whole
input as decimal.  Slicing at byte index 2 panics (modelled as
`Except.error ()`) when index 2 is larger than the length or falls inside
a multi-byte UTF-8 character (a continuation byte, value in 128..191,
sits at index 2). -/
def parseU16Bytes (bs : List Nat) : Except Unit (Option Nat) :=
  if containsSeq bs [48, 120] || containsSeq bs [48, 88] then
    if 2 ≤ bs.length then
      if 128 ≤ bs.getD 2 0 ∧ bs.getD 2 0 < 192 then Except.error ()
      else Except.ok (fromStrRadix 16 65535 (bs.drop 2))
    else Except.error ()
  else Except.ok (fromStrRadix 10 65535 bs)

/-- `Debugger::parse_u16` on a character-list token. -/
def parseU16Chars (cs : List Char) : Except Unit (Option Nat) :=
  parseU16Bytes (charsBytes cs)

/-- `Debugger::parse_u16` on a string. -/
def parseU16 (s : String) : Except Unit (Option Nat) :=
  parseU16Bytes (strBytes s)

/-! ### The debugger REPL -/

/-- ASCII whitespace recognised by the modelled `str::trim`. -/
def isSpaceChar (c : Char) : Bool :=
  c == ' ' || c == '\t' || c == '\n' || c == '\r'

/-- Drop leading whitespace characters. -/
def dropLeadingSpaces : List Char → List Char
  | [] => []
  | c :: cs => if isSpaceChar c then dropLeadingSpaces cs else c :: cs

/-- Rust `str::trim` (restricted to ASCII whitespace). -/
def trimChars (cs : List Char) : List Char :=
  (dropLeadingSpaces ((dropLeadingSpaces cs).reverse)).reverse

/-- Rust `str::split(" ")`: split at every single space, keeping empty
tokens; the result is always nonempty. -/
def splitSpaces (cs : List Char) : List (List Char) :=
  match cs with
  | [] => [[]]
  | c :: rest =>
    let r := splitSpaces rest
    if c == ' ' then [] :: r
    else (c :: r.headD []) :: r.tail

/-- Characters of a string literal, used for command tokens. -/
def tok (s : String) : List Char := s.data

/-- Result of processing one REPL input line: continue the loop, return
from the REPL, exit the process (`q`), or panic (a failed `unwrap` or a
`parse_u16` slice panic).  The hook list records the CPU hooks the line
performed. -/
inductive LineRes (cif : CpuIface) where
  | go (d : Debugger cif.Inst) (c : cif.C) (hooks : List Hook)
  | ret (d : Debugger cif.Inst) (c : cif.C) (hooks : List Hook)
  | quit (hooks : List Hook)
  | panicked (hooks : List Hook)

/-- One iteration of the `Debugger::repl` command loop (`debug.rs` lines
104-283): trim and split the line, then dispatch on the command word.
Console output is not modelled; commands that only print continue the
loop unchanged.  The `info` arms and unknown commands only print. -/
def replLine (cif : CpuIface) (line : List Char) (d : Debugger cif.Inst) (c : cif.C) :
    LineRes cif :=
  let parts := splitSpaces (trimChars line)
  let cmd := parts.headD []
  if cmd == tok "" then LineRes.go d c []
  else if cmd == tok "q" || cmd == tok "quit" then LineRes.quit []
  else if cmd == tok "b" then
    if parts.length == 2 then
      match parseU16Chars (parts.getD 1 []) with
      | Except.error _ => LineRes.panicked []
      | Except.ok none => LineRes.go d c []
      | Except.ok (some addr) =>
        let found := d.breakpoints.any (fun bp => bp.1 == addr)
        let bps := if found then
            d.breakpoints.map (fun bp => if bp.1 == addr then (bp.1, true) else bp)
          else d.breakpoints ++ [(addr, true)]
        LineRes.go { d with breakpoints := bps } c []
    else LineRes.go d c []
  else if cmd == tok "d" then
    if parts.length == 2 then
      match rustParseUint usizeMax (parts.getD 1 []) with
      | none => LineRes.panicked []
      | some idx =>
        if d.breakpoints.length ≤ idx then LineRes.go d c []
        else LineRes.go { d with breakpoints := d.breakpoints.eraseIdx idx } c []
    else LineRes.go d c []
  else if cmd == tok "toggle" then
    if parts.length == 2 then
      match rustParseUint usizeMax (parts.getD 1 []) with
      | none => LineRes.panicked []
      | some idx =>
        if d.breakpoints.length ≤ idx then LineRes.go d c []
        else
          let bp := d.breakpoints.getD idx (0, false)
          LineRes.go { d with breakpoints := d.breakpoints.set idx (bp.1, !bp.2) } c []
    else LineRes.go d c []
  else if cmd == tok "dump" && parts.length == 2 then
    match rustParseUint u32Max (parts.getD 1 []) with
    | none => LineRes.panicked []
    | some flag =>
      if flag == 0 then LineRes.go { d with instructionDump := none } c []
      else LineRes.go { d with instructionDump := some [] } c []
  else if cmd == tok "h" || cmd == tok "hist" then
    let countO := if parts.length < 2 then some 5 else rustParseUint usizeMax (parts.getD 1 [])
    match countO with
    | none => LineRes.panicked []
    | some count =>
      let total := d.instructions.length
      if total < 2 then LineRes.go d c []
      else if total < count then LineRes.go d c []
      else if total == count then LineRes.panicked []
      else LineRes.go d c []
  else if cmd == tok "count" then LineRes.go d c []
  else if cmd == tok "reset" then
    match cif.resetCpu c with
    | Except.error _ => LineRes.panicked [Hook.cpuReset]
    | Except.ok c2 =>
      LineRes.go { d with checks := 0, steps := 0, instructions := [] } c2 [Hook.cpuReset]
  else if cmd == tok "l" || cmd == tok "list" then
    let countO := if 2 ≤ parts.length then rustParseUint usizeMax (parts.getD 1 [])
      else some 5
    match countO with
    | none => LineRes.panicked []
    | some count =>
      if parts.length == 3 then
        match parseU16Chars (parts.getD 2 []) with
        | Except.error _ => LineRes.panicked []
        | Except.ok addrO => LineRes.go d c [Hook.disassemble count addrO]
      else LineRes.go d c [Hook.disassemble count (some (cif.pc c))]
  else if cmd == tok "n" then
    if parts.length == 2 then
      match rustParseUint u32Max (parts.getD 1 []) with
      | none => LineRes.panicked []
      | some n => LineRes.ret { d with mode := Mode.stepN n } c []
    else LineRes.ret { d with mode := Mode.step } c []
  else if cmd == tok "r" then LineRes.ret { d with mode := Mode.cont } c []
  else if cmd == tok "p" then
    if parts.length == 2 then
      match parseU16Chars (parts.getD 1 []) with
      | Except.error _ => LineRes.panicked []
      | Except.ok none => LineRes.go d c []
      | Except.ok (some addr) => LineRes.go d c [Hook.memRead addr]
    else LineRes.go d c []
  else if cmd == tok "w" then
    if parts.length == 3 then
      match parseU16Chars (parts.getD 1 []) with
      | Except.error _ => LineRes.panicked []
      | Except.ok none => LineRes.go d c []
      | Except.ok (some addr) =>
        match parseU16Chars (parts.getD 2 []) with
        | Except.error _ => LineRes.panicked []
        | Except.ok none => LineRes.panicked []
        | Except.ok (some v) => LineRes.go d (cif.memWrite c addr v) [Hook.memWrite addr v]
    else LineRes.go d c []
  else LineRes.go d c []

/-- Result of a whole REPL session on a finite input script: returned to
the emulation loop, exited the process, panicked, or ran out of input
(the Rust loop would block reading the next line). -/
inductive ReplOut (cif : CpuIface) where
  | ret (d : Debugger cif.Inst) (c : cif.C) (hooks : List Hook)
  | quit (hooks : List Hook)
  | panicked (hooks : List Hook)
  | starved (hooks : List Hook)

/-- The hooks a REPL session performed. -/
def ReplOut.hooks {cif : CpuIface} : ReplOut cif → List Hook
  | ReplOut.ret _ _ h => h
  | ReplOut.quit h => h
  | ReplOut.panicked h => h
  | ReplOut.starved h => h

/-- The `loop` of `Debugger::repl`, processing one input line per
iteration. -/
def replGo (cif : CpuIface) :
    List (List Char) → Debugger cif.Inst → cif.C → List Hook → ReplOut cif
  | [], _, _, hks => ReplOut.starved hks
  | line :: rest, d, c, hks =>
    match replLine cif line d c with
    | LineRes.go d2 c2 hs => replGo cif rest d2 c2 (hks ++ hs)
    | LineRes.ret d2 c2 hs => ReplOut.ret d2 c2 (hks ++ hs)
    | LineRes.quit hs => ReplOut.quit (hks ++ hs)
    | LineRes.panicked hs => ReplOut.panicked (hks ++ hs)

/-- `Debugger::repl` from `debug.rs` lines 101-285: bump `steps`, then
run the command loop over the input script. -/
def repl (cif : CpuIface) (d : Debugger cif.Inst) (c : cif.C)
    (script : List (List Char)) : ReplOut cif :=
  replGo cif script { d with steps := d.steps + 1 } c []

/-- The CPU hooks the spec allows the debugger: `fetch(None)` and
`disassemble(count, start)`. -/
def hookAllowedBySpec : Hook → Bool
  | Hook.fetch => true
  | Hook.disassemble _ _ => true
  | _ => false

/-- Hooks the REPL can perform (it never fetches). -/
def replPossibleHook : Hook → Bool
  | Hook.fetch => false
  | _ => true

/-- A concrete CPU for closed debugger runs: the state is a counter that
memory writes bump, `reset` zeroes it. -/
def cifNat : CpuIface where
  C := Nat
  Inst := Nat
  isHalted := fun _ => false
  pc := fun c => c
  fetch := fun c => (c, 0, 0)
  disassemble := fun _ _ _ => []
  memRead := fun _ _ => 0
  memWrite := fun c _ _ => c + 1
  resetCpu := fun _ => Except.ok 0

/-- The concrete CPU with `is_halted` true. -/
def cifHalted : CpuIface := { cifNat with isHalted := fun _ => true }

/-- The hooks recorded for one processed REPL line. -/
def LineRes.hooks {cif : CpuIface} : LineRes cif → List Hook
  | LineRes.go _ _ h => h
  | LineRes.ret _ _ h => h
  | LineRes.quit h => h
  | LineRes.panicked h => h

/-- The result of `frame mOne gbOne none`: two iterations of one T-cycle
each, the PPU receiving the accumulated counts 1 and 2. -/
def rOne : FrameResult mOne where
  gb := { cpu := (), frameCounter := 1 }
  fb := ()
  cycles := 2
  trace := [Ev.cpu 1, Ev.ppu 1 false [], Ev.serialCheck false, Ev.dma 1, Ev.timer 1 false,
    Ev.cpu 1, Ev.ppu 2 false [], Ev.serialCheck false, Ev.dma 1, Ev.timer 1 false]

/-- The result of `frame mOne gbOne (some (JoypadEvent.down JoypadInput.a))`:
the same loop followed by the handled joypad event and its interrupt. -/
def rOneJoy : FrameResult mOne where
  gb := { cpu := (), frameCounter := 1 }
  fb := ()
  cycles := 2
  trace := [Ev.cpu 1, Ev.ppu 1 false [], Ev.serialCheck false, Ev.dma 1, Ev.timer 1 false,
    Ev.cpu 1, Ev.ppu 2 false [], Ev.serialCheck false, Ev.dma 1, Ev.timer 1 false,
    Ev.joypadHandled (JoypadEvent.down JoypadInput.a) true, Ev.trigger Interrupt.joypad]

/-! ### Loop characterisation lemmas -/

theorem loopOk_triggers (cycle : Nat) :
    ∀ (pending : List Interrupt) (evs : List Ev),
      loopOk cycle pending (pending.map Ev.trigger ++ evs) = loopOk cycle [] evs := by
  intro pending
  induction pending with
  | nil => intro evs; rfl
  | cons i is ih => intro evs; simp [loopOk, ih]

theorem cpuSum_append (l1 l2 : List Ev) :
    cpuSum (l1 ++ l2) = cpuSum l1 + cpuSum l2 := by
  simp [cpuSum]

theorem dmaSum_append (l1 l2 : List Ev) :
    dmaSum (l1 ++ l2) = dmaSum l1 + dmaSum l2 := by
  simp [dmaSum]

theorem timerSum_append (l1 l2 : List Ev) :
    timerSum (l1 ++ l2) = timerSum l1 + timerSum l2 := by
  simp [timerSum]

theorem trigger_map_cpu_sum (l : List Interrupt) :
    (List.map evCpuDelta (List.map Ev.trigger l)).sum = 0 := by
  induction l with
  | nil => rfl
  | cons i is ih => simpa [evCpuDelta] using ih

theorem trigger_map_dma_sum (l : List Interrupt) :
    (List.map evDmaDelta (List.map Ev.trigger l)).sum = 0 := by
  induction l with
  | nil => rfl
  | cons i is ih => simpa [evDmaDelta] using ih

theorem trigger_map_timer_sum (l : List Interrupt) :
    (List.map evTimerDelta (List.map Ev.trigger l)).sum = 0 := by
  induction l with
  | nil => rfl
  | cons i is ih => simpa [evTimerDelta] using ih

theorem cpuDeltas_trigger_map (l : List Interrupt) (evs : List Ev) :
    cpuDeltas (l.map Ev.trigger ++ evs) = cpuDeltas evs := by
  induction l with
  | nil => rfl
  | cons i is ih => simp [cpuDeltas]

theorem cpuDeltas_cons_cpu (c : Nat) (rest : List Ev) :
    cpuDeltas (Ev.cpu c :: rest) = c :: cpuDeltas rest := by
  simp [cpuDeltas]

theorem cpuDeltas_cons_ppu (a : Nat) (sp : Bool) (ints : List Interrupt) (rest : List Ev) :
    cpuDeltas (Ev.ppu a sp ints :: rest) = cpuDeltas rest := by
  simp [cpuDeltas]

theorem cpuDeltas_cons_serial (b : Bool) (rest : List Ev) :
    cpuDeltas (Ev.serialCheck b :: rest) = cpuDeltas rest := by
  simp [cpuDeltas]

theorem cpuDeltas_cons_dma (c : Nat) (rest : List Ev) :
    cpuDeltas (Ev.dma c :: rest) = cpuDeltas rest := by
  simp [cpuDeltas]

theorem cpuDeltas_cons_timer (c : Nat) (f : Bool) (rest : List Ev) :
    cpuDeltas (Ev.timer c f :: rest) = cpuDeltas rest := by
  simp [cpuDeltas]

/-- Everything the characterisation of a successful scheduler loop needs:
structural well-formedness, cycle accounting (final counter equals the
starting counter plus the CPU cycle total; DMA and timer cycle totals
equal the CPU total), budget compliance (the loop stops at or above the
budget, and every iteration starts strictly below it), and the absence of
joypad events. -/
theorem frameLoop_run (m : Machine) (sp : Bool) (N : Nat) :
    ∀ fuel cycle s sEnd cycEnd evs,
      frameLoop m sp N fuel cycle s = some (sEnd, cycEnd, evs) →
      loopOk cycle [] evs = true ∧
      cycEnd = cycle + cpuSum evs ∧
      dmaSum evs = cpuSum evs ∧
      timerSum evs = cpuSum evs ∧
      N ≤ cycEnd ∧
      (∀ e ∈ evs, isLoopEv e = true) ∧
      (∀ k, k < (cpuDeltas evs).length →
        cycle + ((cpuDeltas evs).take k).sum < N) := by
  intro fuel
  induction fuel with
  | zero =>
    intro cycle s sEnd cycEnd evs h
    simp only [frameLoop] at h
    split at h
    · exact absurd h (by simp)
    · next hge =>
      simp only [Option.some.injEq, Prod.mk.injEq] at h
      obtain ⟨-, rfl, rfl⟩ := h
      refine ⟨rfl, by simp [cpuSum], by simp [dmaSum, cpuSum], by simp [timerSum, cpuSum],
        Nat.le_of_not_lt hge, by simp, ?_⟩
      intro k hk
      simp [cpuDeltas] at hk
  | succ n ih =>
    intro cycle s sEnd cycEnd evs h
    simp only [frameLoop] at h
    split at h
    · next hlt =>
      rw [Option.map_eq_some'] at h
      obtain ⟨⟨sR, cycR, evsR⟩, hrec, hval⟩ := h
      simp only [Prod.mk.injEq] at hval
      obtain ⟨-, h2, h3⟩ := hval
      subst h2
      subst h3
      obtain ⟨ih1, ih2, ih3, ih4, ih5, ih6, ih7⟩ := ih _ _ sR cycR evsR hrec
      refine ⟨?_, ?_, ?_, ?_, ih5, ?_, ?_⟩
      · simp only [loopOk, loopOk_triggers, beq_self_eq_true, Bool.true_and]
        exact ih1
      · simp only [cpuSum, List.map_cons, List.map_append, List.sum_cons, List.sum_append,
          evCpuDelta, trigger_map_cpu_sum] at ih2 ⊢
        omega
      · simp only [cpuSum, dmaSum, List.map_cons, List.map_append, List.sum_cons,
          List.sum_append, evCpuDelta, evDmaDelta, trigger_map_cpu_sum,
          trigger_map_dma_sum] at ih3 ⊢
        omega
      · simp only [cpuSum, timerSum, List.map_cons, List.map_append, List.sum_cons,
          List.sum_append, evCpuDelta, evTimerDelta, trigger_map_cpu_sum,
          trigger_map_timer_sum] at ih4 ⊢
        omega
      · intro e he
        simp only [List.mem_cons, List.mem_append, List.mem_map] at he
        rcases he with rfl | rfl | rfl | rfl | rfl | (⟨i, -, rfl⟩ | he)
        · rfl
        · rfl
        · rfl
        · rfl
        · rfl
        · rfl
        · exact ih6 e he
      · intro k hk
        rw [cpuDeltas_cons_cpu, cpuDeltas_cons_ppu, cpuDeltas_cons_serial,
          cpuDeltas_cons_dma, cpuDeltas_cons_timer, cpuDeltas_trigger_map] at hk ⊢
        match k with
        | 0 => simpa using hlt
        | k + 1 =>
          have hk2 : k < (cpuDeltas evsR).length := by
            simpa using hk
          have := ih7 k hk2
          simp only [List.take_succ_cons, List.sum_cons]
          omega
    · next hge =>
      simp only [Option.some.injEq, Prod.mk.injEq] at h
      obtain ⟨-, rfl, rfl⟩ := h
      refine ⟨rfl, by simp [cpuSum], by simp [dmaSum, cpuSum], by simp [timerSum, cpuSum],
        Nat.le_of_not_lt hge, by simp, ?_⟩
      intro k hk
      simp [cpuDeltas] at hk

/-- With a PPU that only requests VBlank and STAT interrupts (spec 4.6),
every interrupt the scheduler loop delivers is VBlank, LCD STAT or
Timer. -/
theorem frameLoop_triggers (m : Machine) (sp : Bool) (N : Nat) (hppu : PpuSane m) :
    ∀ fuel cycle s sEnd cycEnd evs,
      frameLoop m sp N fuel cycle s = some (sEnd, cycEnd, evs) →
      ∀ i, Ev.trigger i ∈ evs →
        i = Interrupt.vblank ∨ i = Interrupt.lcdStat ∨ i = Interrupt.timer := by
  intro fuel
  induction fuel with
  | zero =>
    intro cycle s sEnd cycEnd evs h i hi
    simp only [frameLoop] at h
    split at h
    · exact absurd h (by simp)
    · simp only [Option.some.injEq, Prod.mk.injEq] at h
      obtain ⟨-, -, rfl⟩ := h
      simp at hi
  | succ n ih =>
    intro cycle s sEnd cycEnd evs h i hi
    simp only [frameLoop] at h
    split at h
    · rw [Option.map_eq_some'] at h
      obtain ⟨⟨sR, cycR, evsR⟩, hrec, hval⟩ := h
      simp only [Prod.mk.injEq] at hval
      obtain ⟨-, -, h3⟩ := hval
      subst h3
      simp only [List.mem_cons, List.mem_append, List.mem_map] at hi
      rcases hi with h | h | h | h | h | (⟨j, hj, hje⟩ | hi)
      · exact absurd h (by simp)
      · exact absurd h (by simp)
      · exact absurd h (by simp)
      · exact absurd h (by simp)
      · exact absurd h (by simp)
      · obtain rfl := Ev.trigger.inj hje
        rcases hj with hj2 | hj2
        · rcases hppu _ _ _ _ hj2 with h | h
          · exact Or.inl h
          · exact Or.inr (Or.inl h)
        · split at hj2
          · simp only [List.mem_singleton] at hj2
            exact Or.inr (Or.inr hj2)
          · simp at hj2
      · exact ih _ _ sR cycR evsR hrec i hi
    · simp only [Option.some.injEq, Prod.mk.injEq] at h
      obtain ⟨-, -, rfl⟩ := h
      simp at hi

/-- When every CPU step consumes at least one T-cycle, fuel equal to the
remaining budget suffices: the scheduler loop terminates. -/
theorem frameLoop_total (m : Machine) (sp : Bool) (N : Nat)
    (hstep : ∀ s, 1 ≤ (m.cpuStep s).2) :
    ∀ fuel cycle s, N ≤ cycle + fuel →
      (frameLoop m sp N fuel cycle s).isSome = true := by
  intro fuel
  induction fuel with
  | zero =>
    intro cycle s hle
    simp only [frameLoop]
    split
    · next hlt => omega
    · simp
  | succ n ih =>
    intro cycle s hle
    simp only [frameLoop]
    split
    · next hlt =>
      rw [Option.isSome_map']
      apply ih
      have := hstep s
      omega
    · simp

/-- Unfolding of a successful `frame` call with no joypad event. -/
theorem frame_run_none (m : Machine) (gb : Gameboy m) (r : FrameResult m)
    (h : frame m gb none = some r) :
    ∃ s cyc evs,
      frameLoop m (m.speed gb.cpu) (FRAME_DURATION / m.cycleTime gb.cpu)
        (FRAME_DURATION / m.cycleTime gb.cpu) 0 gb.cpu = some (s, cyc, evs) ∧
      r.gb.cpu = s ∧ r.gb.frameCounter = gb.frameCounter + 1 ∧
      r.cycles = cyc ∧ r.trace = evs := by
  simp only [frame] at h
  rw [Option.map_eq_some'] at h
  obtain ⟨⟨s, cyc, evs⟩, hL, hval⟩ := h
  subst hval
  exact ⟨s, cyc, evs, hL, rfl, rfl, rfl, rfl⟩

/-- Unfolding of a successful `frame` call carrying a joypad event: the
trace ends with the handled event, followed by a Joypad interrupt trigger
exactly when `handle_event` returned true. -/
theorem frame_run_some (m : Machine) (gb : Gameboy m) (e : JoypadEvent)
    (r : FrameResult m) (h : frame m gb (some e) = some r) :
    ∃ s cyc evs,
      frameLoop m (m.speed gb.cpu) (FRAME_DURATION / m.cycleTime gb.cpu)
        (FRAME_DURATION / m.cycleTime gb.cpu) 0 gb.cpu = some (s, cyc, evs) ∧
      r.gb.frameCounter = gb.frameCounter + 1 ∧ r.cycles = cyc ∧
      r.trace = evs ++ (Ev.joypadHandled e (m.handleEvent s e).2 ::
        (if (m.handleEvent s e).2 then [Ev.trigger Interrupt.joypad] else [])) := by
  simp only [frame] at h
  rw [Option.map_eq_some'] at h
  obtain ⟨⟨s, cyc, evs⟩, hL, hval⟩ := h
  subst hval
  refine ⟨s, cyc, evs, hL, ?_, ?_, ?_⟩
  · cases hb : (m.handleEvent s e).2 <;> simp [hb]
  · cases hb : (m.handleEvent s e).2 <;> simp [hb]
  · cases hb : (m.handleEvent s e).2 <;> simp [hb]

theorem cpuDeltas_append (l1 l2 : List Ev) :
    cpuDeltas (l1 ++ l2) = cpuDeltas l1 ++ cpuDeltas l2 := by
  simp [cpuDeltas]

theorem joypadTail_facts (e : JoypadEvent) (b : Bool) :
    cpuSum (Ev.joypadHandled e b :: (if b then [Ev.trigger Interrupt.joypad] else [])) = 0 ∧
    dmaSum (Ev.joypadHandled e b :: (if b then [Ev.trigger Interrupt.joypad] else [])) = 0 ∧
    timerSum (Ev.joypadHandled e b :: (if b then [Ev.trigger Interrupt.joypad] else [])) = 0 ∧
    cpuDeltas (Ev.joypadHandled e b :: (if b then [Ev.trigger Interrupt.joypad] else [])) = [] ∧
    joypadTailOk (Ev.joypadHandled e b ::
      (if b then [Ev.trigger Interrupt.joypad] else [])) = true := by
  cases b <;>
    simp [cpuSum, dmaSum, timerSum, cpuDeltas, joypadTailOk,
      evCpuDelta, evDmaDelta, evTimerDelta]

/-- Combined facts about every successful `frame` call: the trace is a
well-formed scheduler-loop trace followed by a well-formed joypad tail,
the cycle totals passed to DMA and the timer equal the CPU total, which
is the final cycle counter, the counter meets the budget
`FRAME_DURATION / cycle_time` while every iteration starts below it, and
the frame counter is incremented by one. -/
theorem frame_facts (m : Machine) (gb : Gameboy m) (ev : Option JoypadEvent)
    (r : FrameResult m) (h : frame m gb ev = some r) :
    ∃ l t, r.trace = l ++ t ∧
      loopOk 0 [] l = true ∧
      joypadTailOk t = true ∧
      (∀ e ∈ l, isLoopEv e = true) ∧
      cpuSum r.trace = r.cycles ∧
      dmaSum r.trace = r.cycles ∧
      timerSum r.trace = r.cycles ∧
      FRAME_DURATION / m.cycleTime gb.cpu ≤ r.cycles ∧
      (∀ k, k < (cpuDeltas r.trace).length →
        ((cpuDeltas r.trace).take k).sum < FRAME_DURATION / m.cycleTime gb.cpu) ∧
      r.gb.frameCounter = gb.frameCounter + 1 ∧
      (ev = none → t = []) ∧
      (∀ e2, ev = some e2 → ∃ b, t = Ev.joypadHandled e2 b ::
        (if b then [Ev.trigger Interrupt.joypad] else [])) := by
  cases ev with
  | none =>
    obtain ⟨s, cyc, evs, hL, -, hctr, hcyc, htr⟩ := frame_run_none m gb r h
    obtain ⟨h1, h2, h3, h4, h5, h6, h7⟩ := frameLoop_run m _ _ _ _ _ _ _ _ hL
    refine ⟨evs, [], by simp [htr], h1, rfl, h6, ?_, ?_, ?_, ?_, ?_, hctr, fun _ => rfl,
      fun e2 he2 => Option.noConfusion he2⟩
    · rw [htr, hcyc]; omega
    · rw [htr, hcyc]; omega
    · rw [htr, hcyc]; omega
    · rw [hcyc]; exact h5
    · intro k hk
      rw [htr] at hk ⊢
      have := h7 k hk
      omega
  | some e =>
    obtain ⟨s, cyc, evs, hL, hctr, hcyc, htr⟩ := frame_run_some m gb e r h
    obtain ⟨h1, h2, h3, h4, h5, h6, h7⟩ := frameLoop_run m _ _ _ _ _ _ _ _ hL
    obtain ⟨ht1, ht2, ht3, ht4, ht5⟩ := joypadTail_facts e (m.handleEvent s e).2
    refine ⟨evs, _, htr, h1, ht5, h6, ?_, ?_, ?_, ?_, ?_, hctr,
      fun hne => Option.noConfusion hne, fun e2 he2 => ?_⟩
    · rw [htr, hcyc, cpuSum_append, ht1]; omega
    · rw [htr, hcyc, dmaSum_append, ht2]; omega
    · rw [htr, hcyc, timerSum_append, ht3]; omega
    · rw [hcyc]; exact h5
    · intro k hk
      rw [htr, cpuDeltas_append, ht4, List.append_nil] at hk ⊢
      have := h7 k hk
      omega
    · obtain rfl := Option.some.inj he2
      exact ⟨(m.handleEvent s e).2, rfl⟩

/-! ### Claim theorems -/

/-- C1 counterexample: the claim that each PPU step receives the cycle
delta `cycles_taken` is false.  On the machine `mOne` (budget 2, one
T-cycle per CPU step), the frame completes and the second iteration
passes the accumulated count 2 to the PPU while that iteration's
`cycles_taken` is 1; `lib.rs` line 92 passes `cycle + cycles_taken`, not
`cycles_taken`. -/
theorem claim1_counterexample :
    (frame mOne gbOne none).isSome = true ∧
    ppuArgsEqualDeltas (frameTrace mOne gbOne none) = false :=
  ⟨by decide, by decide⟩

/-- C1 (amended): in every completed frame the trace decomposes into
scheduler iterations in which the DMA step and the timer step receive
exactly that iteration's `cycles_taken` while the PPU step receives the
accumulated count `cycle + cycles_taken` (`loopOk`), followed by the
joypad tail; consequently the totals passed to DMA and to the timer both
equal the total number of T-cycles the CPU advanced (the final cycle
counter), while the PPU arguments are running totals rather than
deltas. -/
theorem frame_cycle_accounting (m : Machine) (gb : Gameboy m) (ev : Option JoypadEvent)
    (r : FrameResult m) (h : frame m gb ev = some r) :
    ∃ l t, r.trace = l ++ t ∧ loopOk 0 [] l = true ∧ joypadTailOk t = true ∧
      cpuSum r.trace = r.cycles ∧ dmaSum r.trace = r.cycles ∧
      timerSum r.trace = r.cycles := by
  obtain ⟨l, t, c1, c2, c3, -, c5, c6, c7, -, -, -, -, -⟩ := frame_facts m gb ev r h
  exact ⟨l, t, c1, c2, c3, c5, c6, c7⟩

/-- C1 witness: the amended claim evaluated on the concrete machine
`mOne`. -/
theorem frame_cycle_accounting_witness :
    ∃ l t, rOne.trace = l ++ t ∧ loopOk 0 [] l = true ∧ joypadTailOk t = true ∧
      cpuSum rOne.trace = rOne.cycles ∧ dmaSum rOne.trace = rOne.cycles ∧
      timerSum rOne.trace = rOne.cycles :=
  frame_cycle_accounting mOne gbOne none rOne rfl

/-- C2: `FRAME_DURATION` is 16666666 nanoseconds, every completed frame
uses the budget `FRAME_DURATION / cycle_time`, runs until the accumulated
taken cycles reach that budget (final counter at least the budget), and
starts every scheduler iteration strictly below it. -/
theorem frame_budget (m : Machine) (gb : Gameboy m) (ev : Option JoypadEvent)
    (r : FrameResult m) (h : frame m gb ev = some r) :
    FRAME_DURATION = 16666666 ∧
    FRAME_DURATION / m.cycleTime gb.cpu ≤ r.cycles ∧
    cpuSum r.trace = r.cycles ∧
    (∀ k, k < (cpuDeltas r.trace).length →
      ((cpuDeltas r.trace).take k).sum < FRAME_DURATION / m.cycleTime gb.cpu) := by
  obtain ⟨l, t, -, -, -, -, c5, -, -, c8, c9, -, -, -⟩ := frame_facts m gb ev r h
  exact ⟨rfl, c8, c5, c9⟩

/-- C2 witness: the budget claim evaluated on the concrete machine
`mOne`. -/
theorem frame_budget_witness :
    FRAME_DURATION = 16666666 ∧ FRAME_DURATION / mOne.cycleTime gbOne.cpu ≤ rOne.cycles :=
  ⟨(frame_budget mOne gbOne none rOne rfl).1, (frame_budget mOne gbOne none rOne rfl).2.1⟩

/-- C3: every completed frame trace is a sequence of iterations in the
fixed order CPU step, PPU step, serial poll, DMA step, timer step, then
the delivery of exactly the interrupts the PPU and the timer produced in
that iteration, before the next CPU step (`loopOk`); the joypad handling
follows after the loop (`joypadTailOk`). -/
theorem frame_component_order (m : Machine) (gb : Gameboy m) (ev : Option JoypadEvent)
    (r : FrameResult m) (h : frame m gb ev = some r) :
    ∃ l t, r.trace = l ++ t ∧ loopOk 0 [] l = true ∧ joypadTailOk t = true := by
  obtain ⟨l, t, c1, c2, c3, -, -, -, -, -, -, -, -, -⟩ := frame_facts m gb ev r h
  exact ⟨l, t, c1, c2, c3⟩

/-- C3 witness: the ordering claim evaluated on the concrete machine
`mOne` with a joypad event. -/
theorem frame_component_order_witness :
    ∃ l t, rOneJoy.trace = l ++ t ∧ loopOk 0 [] l = true ∧ joypadTailOk t = true :=
  frame_component_order mOne gbOne (some (JoypadEvent.down JoypadInput.a)) rOneJoy rfl

/-- C4: with a PPU that only requests VBlank and STAT interrupts
(spec 4.6), no completed frame ever triggers a Serial interrupt on the
CPU: the serial push in `lib.rs` lines 97-100 is commented out. -/
theorem frame_never_serial (m : Machine) (hppu : PpuSane m) (gb : Gameboy m)
    (ev : Option JoypadEvent) (r : FrameResult m) (h : frame m gb ev = some r) :
    Ev.trigger Interrupt.serial ∉ r.trace := by
  cases ev with
  | none =>
    obtain ⟨s, cyc, evs, hL, -, -, -, htr⟩ := frame_run_none m gb r h
    intro hmem
    rw [htr] at hmem
    rcases frameLoop_triggers m _ _ hppu _ _ _ _ _ _ hL Interrupt.serial hmem with
      h' | h' | h' <;> simp at h'
  | some e =>
    obtain ⟨s, cyc, evs, hL, -, -, htr⟩ := frame_run_some m gb e r h
    intro hmem
    rw [htr] at hmem
    rcases List.mem_append.1 hmem with hm | hm
    · rcases frameLoop_triggers m _ _ hppu _ _ _ _ _ _ hL Interrupt.serial hm with
        h' | h' | h' <;> simp at h'
    · rcases List.mem_cons.1 hm with he | hm2
      · exact Ev.noConfusion he
      · cases hb : (m.handleEvent s e).2 <;> rw [hb] at hm2 <;> simp at hm2

/-- C4 witness: no Serial interrupt in the concrete frame `rOne`. -/
theorem frame_never_serial_witness :
    Ev.trigger Interrupt.serial ∉ rOne.trace :=
  frame_never_serial mOne
    (by intro s a sp i hi; simp [mOne] at hi) gbOne none rOne rfl

/-- C5: a joypad event passed to a completed frame is handled exactly
once, after the scheduler loop; a Joypad interrupt is triggered exactly
when `handle_event` returned true (the boolean recorded in the handled
event). -/
theorem frame_joypad_event (m : Machine) (hppu : PpuSane m) (gb : Gameboy m)
    (e : JoypadEvent) (r : FrameResult m) (h : frame m gb (some e) = some r) :
    ∃ l b, r.trace = l ++ (Ev.joypadHandled e b ::
        (if b then [Ev.trigger Interrupt.joypad] else [])) ∧
      (∀ e2 b2, Ev.joypadHandled e2 b2 ∉ l) ∧
      ((Ev.trigger Interrupt.joypad ∈ r.trace) ↔ b = true) := by
  obtain ⟨s, cyc, evs, hL, -, -, htr⟩ := frame_run_some m gb e r h
  obtain ⟨-, -, -, -, -, h6, -⟩ := frameLoop_run m _ _ _ _ _ _ _ _ hL
  refine ⟨evs, (m.handleEvent s e).2, htr, ?_, ?_⟩
  · intro e2 b2 hmem
    have := h6 _ hmem
    simp [isLoopEv] at this
  · constructor
    · intro hmem
      rw [htr] at hmem
      rcases List.mem_append.1 hmem with hm | hm
      · rcases frameLoop_triggers m _ _ hppu _ _ _ _ _ _ hL Interrupt.joypad hm with
          h' | h' | h' <;> simp at h'
      · rcases List.mem_cons.1 hm with he | hm2
        · exact Ev.noConfusion he
        · cases hb : (m.handleEvent s e).2 with
          | false => rw [hb] at hm2; simp at hm2
          | true => rfl
    · intro hb
      rw [htr, hb]
      simp

/-- C5 witness: the joypad claim evaluated on the concrete machine
`mOne`, whose `handle_event` reports a transition. -/
theorem frame_joypad_event_witness :
    ∃ l b, rOneJoy.trace = l ++ (Ev.joypadHandled (JoypadEvent.down JoypadInput.a) b ::
        (if b then [Ev.trigger Interrupt.joypad] else [])) ∧
      (∀ e2 b2, Ev.joypadHandled e2 b2 ∉ l) ∧
      ((Ev.trigger Interrupt.joypad ∈ rOneJoy.trace) ↔ b = true) :=
  frame_joypad_event mOne
    (by intro s a sp i hi; simp [mOne] at hi) gbOne
    (JoypadEvent.down JoypadInput.a) rOneJoy rfl

/-- C6: the frame counter is incremented by exactly one per completed
`frame` call and set to zero by `init`, `insert`, `eject` and `reset`;
after 60 frames from a fresh `init` it equals 60. -/
theorem frame_counter_spec (m : Machine) :
    (∀ p gb2, init m p = Except.ok gb2 → gb2.frameCounter = 0) ∧
    (∀ gb p gb2, insert m gb p = Except.ok gb2 → gb2.frameCounter = 0) ∧
    (∀ gb gb2, eject m gb = some gb2 → gb2.frameCounter = 0) ∧
    (∀ gb gb2, reset m gb = Except.ok gb2 → gb2.frameCounter = 0) ∧
    (∀ gb ev r, frame m gb ev = some r → r.gb.frameCounter = gb.frameCounter + 1) ∧
    (∀ n gb gb2, frameN m n gb = some gb2 → gb2.frameCounter = gb.frameCounter + n) ∧
    (∀ p gb gb2, init m p = Except.ok gb → frameN m 60 gb = some gb2 →
      gb2.frameCounter = 60) := by
  have hFrame : ∀ gb ev r, frame m gb ev = some r →
      r.gb.frameCounter = gb.frameCounter + 1 := by
    intro gb ev r h
    obtain ⟨l, t, -, -, -, -, -, -, -, -, -, c10, -, -⟩ := frame_facts m gb ev r h
    exact c10
  have hInit : ∀ p gb2, init m p = Except.ok gb2 → gb2.frameCounter = 0 := by
    intro p gb2 h
    rcases p with - | p
    · simp only [init] at h
      split at h
      · exact Except.noConfusion h
      · obtain rfl := Except.ok.inj h
        rfl
    · simp only [init] at h
      split at h
      · exact Except.noConfusion h
      · split at h
        · exact Except.noConfusion h
        · obtain rfl := Except.ok.inj h
          rfl
  have hFrameN : ∀ n gb gb2, frameN m n gb = some gb2 →
      gb2.frameCounter = gb.frameCounter + n := by
    intro n
    induction n with
    | zero =>
      intro gb gb2 h
      simp only [frameN] at h
      obtain rfl := Option.some.inj h
      rfl
    | succ k ih =>
      intro gb gb2 h
      simp only [frameN] at h
      cases hf : frame m gb none with
      | none => rw [hf] at h; exact Option.noConfusion h
      | some r =>
        rw [hf] at h
        have h1 := ih r.gb gb2 h
        have h2 := hFrame gb none r hf
        omega
  refine ⟨hInit, ?_, ?_, ?_, hFrame, hFrameN, ?_⟩
  · intro gb p gb2 h
    simp only [insert] at h
    split at h
    · exact Except.noConfusion h
    · split at h
      · exact Except.noConfusion h
      · obtain rfl := Except.ok.inj h
        rfl
  · intro gb gb2 h
    simp only [eject] at h
    split at h
    · exact Option.noConfusion h
    · obtain rfl := Option.some.inj h
      rfl
  · intro gb gb2 h
    simp only [reset] at h
    split at h
    · exact Except.noConfusion h
    · obtain rfl := Except.ok.inj h
      rfl
  · intro p gb gb2 h1 h2
    have h3 := hFrameN 60 gb gb2 h2
    have h4 := hInit p gb h1
    omega

/-- C6 witness: sixty frames on the concrete machine `mOne` from a fresh
`init` give frame counter 60. -/
theorem frame_counter_spec_witness :
    ∃ gb2, frameN mOne 60 { cpu := (), frameCounter := 0 } = some gb2 ∧
      gb2.frameCounter = 60 :=
  ⟨{ cpu := (), frameCounter := 60 }, rfl,
    (frame_counter_spec mOne).2.2.2.2.2.2 (some ()) { cpu := (), frameCounter := 0 }
      { cpu := (), frameCounter := 60 } rfl rfl⟩

/-- C7 counterexample: the claim that `frame` returns a frame buffer for
every emulator state is false under the spec's own CPU model: with a
stopped CPU every step takes 0 T-cycles (spec 4.5 step 1), `cycle` never
advances, and the `while cycle < num_cycles` loop of `lib.rs` never
terminates — modelled by the fuelled loop failing to complete. -/
theorem claim7_counterexample :
    frame mStop { cpu := (), frameCounter := 0 } none = none := rfl

/-- C7 (amended): construction errors are surfaced only as error results
of `init` and `insert` (each error of `init`/`insert` on a ROM path is
exactly a propagated cartridge-load or CPU-construction error), and
`frame` itself neither raises nor returns an error: whenever every CPU
step consumes at least one T-cycle it completes and returns a frame
buffer.  If the CPU is stopped forever (zero-cycle steps) the frame loop
does not terminate, as the counterexample shows. -/
theorem frame_total_and_init_errors (m : Machine)
    (hstep : ∀ s, 1 ≤ (m.cpuStep s).2) :
    (∀ gb ev, (frame m gb ev).isSome = true) ∧
    (∀ p e2, init m (some p) = Except.error e2 →
      m.fromFile p = Except.error e2 ∨
      ∃ cart, m.fromFile p = Except.ok cart ∧ m.newCpu (some cart) = Except.error e2) ∧
    (∀ gb p e2, insert m gb p = Except.error e2 →
      m.fromFile p = Except.error e2 ∨
      ∃ cart, m.fromFile p = Except.ok cart ∧ m.newCpu (some cart) = Except.error e2) := by
  refine ⟨?_, ?_, ?_⟩
  · intro gb ev
    simp only [frame]
    rw [Option.isSome_map']
    exact frameLoop_total m _ _ hstep _ 0 gb.cpu (by omega)
  · intro p e2 h
    simp only [init] at h
    split at h
    · rename_i e3 heq
      obtain rfl := Except.error.inj h
      exact Or.inl heq
    · rename_i cart heq
      split at h
      · rename_i e4 heq2
        obtain rfl := Except.error.inj h
        exact Or.inr ⟨cart, heq, heq2⟩
      · exact Except.noConfusion h
  · intro gb p e2 h
    simp only [insert] at h
    split at h
    · rename_i e3 heq
      obtain rfl := Except.error.inj h
      exact Or.inl heq
    · rename_i cart heq
      split at h
      · rename_i e4 heq2
        obtain rfl := Except.error.inj h
        exact Or.inr ⟨cart, heq, heq2⟩
      · exact Except.noConfusion h

/-- C7 witness: on the concrete machine `mOne`, whose CPU steps take one
T-cycle, every frame completes. -/
theorem frame_total_witness :
    (frame mOne gbOne none).isSome = true :=
  (frame_total_and_init_errors mOne (fun _ => Nat.le_refl 1)).1 gbOne none

/-! ### Debugger claims -/

/-- C8 counterexample: the claim that the debugger's only CPU hooks are
`fetch(None)` and `disassemble(count, start)` is false: a REPL session
processing the command `w 16 2` performs a CPU memory write hook, and it
also mutates the CPU through that hook. -/
theorem claim8_counterexample :
    ((repl cifNat (Debugger.new Nat) ((0 : Nat)) [tok "w 16 2", tok "n"]).hooks).all
      hookAllowedBySpec = false := by decide

/-- C8 (amended): `Debugger::triggered` is purely observational — it
receives the CPU by shared reference (so it cannot modify it), and its
only CPU hook is `fetch(None)`, with no hook at all when the CPU is
halted; but `fetch` and `disassemble` are not the debugger's only CPU
hooks: the REPL additionally performs memory read, memory write and CPU
reset hooks (commands `p`, `w`, `reset`) — for example the command
`w 16 2` performs the memory-write hook, which mutates the CPU. -/
theorem debugger_hooks (cif : CpuIface) :
    (∀ d cpu, ∀ h2 ∈ (triggered cif d cpu).2.2, h2 = Hook.fetch) ∧
    (Hook.memWrite 16 2 ∈
        (repl cifNat (Debugger.new Nat) ((0 : Nat)) [tok "w 16 2", tok "n"]).hooks ∧
      hookAllowedBySpec (Hook.memWrite 16 2) = false ∧
      (repl cifNat (Debugger.new Nat) ((0 : Nat)) [tok "w 16 2", tok "n"]).hooks =
        [Hook.memWrite 16 2]) := by
  constructor
  · intro d cpu h2 hmem
    simp only [triggered] at hmem
    repeat' split at hmem
    all_goals first
      | exact absurd hmem (List.not_mem_nil h2)
      | simpa using hmem
  · exact ⟨by decide, rfl, by decide⟩

/-- C8 witness: the fetch-only property of `triggered` applied at the
concrete interface, where the hook list is exactly `[fetch]`. -/
theorem debugger_hooks_witness :
    Hook.fetch = Hook.fetch :=
  (debugger_hooks cifNat).1 (Debugger.new Nat) ((7 : Nat)) Hook.fetch (by decide)

/-- C9: when the CPU is halted, `Debugger::triggered` returns false
immediately: the debugger state is unchanged (no instruction recorded, no
dump line written, no breakpoint consulted) and no CPU hook runs. -/
theorem triggered_halted (cif : CpuIface) (d : Debugger cif.Inst) (cpu : cif.C)
    (h : cif.isHalted cpu = true) :
    triggered cif d cpu = (d, false, []) := by
  simp [triggered, h]

/-- C9 witness: the halted CPU claim on the concrete interface. -/
theorem triggered_halted_witness :
    triggered cifHalted (Debugger.new Nat) ((7 : Nat)) = (Debugger.new Nat, false, []) :=
  triggered_halted cifHalted (Debugger.new Nat) ((7 : Nat)) rfl

/-! ### parse_u16 lemmas and claims -/

theorem startsWithSeq_length :
    ∀ pat hay : List Nat, startsWithSeq pat hay = true → pat.length ≤ hay.length := by
  intro pat
  induction pat with
  | nil => intro hay h; simp
  | cons a as2 ih =>
    intro hay h
    cases hay with
    | nil => simp [startsWithSeq] at h
    | cons b bs =>
      simp only [startsWithSeq, Bool.and_eq_true] at h
      have := ih bs h.2
      simp only [List.length_cons]
      omega

theorem containsSeq_length :
    ∀ hay pat : List Nat, containsSeq hay pat = true → pat.length ≤ hay.length := by
  intro hay
  induction hay with
  | nil =>
    intro pat h
    simp only [containsSeq] at h
    exact startsWithSeq_length pat [] h
  | cons x t ih =>
    intro pat h
    simp only [containsSeq, Bool.or_eq_true] at h
    rcases h with h | h
    · exact startsWithSeq_length _ _ h
    · have := ih pat h
      simp only [List.length_cons]
      omega

theorem getD_mem_of_lt :
    ∀ (l : List Nat) (i d : Nat), i < l.length → l.getD i d ∈ l := by
  intro l
  induction l with
  | nil => intro i d h; simp at h
  | cons x t ih =>
    intro i d h
    cases i with
    | zero => simp [List.getD]
    | succ j =>
      simp only [List.getD_cons_succ]
      exact List.mem_cons_of_mem x (ih j d (by simpa using h))

theorem getD_default_of_le :
    ∀ (l : List Nat) (i d : Nat), l.length ≤ i → l.getD i d = d := by
  intro l
  induction l with
  | nil => intro i d h; simp [List.getD]
  | cons x t ih =>
    intro i d h
    cases i with
    | zero => simp at h
    | succ j =>
      simp only [List.getD_cons_succ]
      exact ih j d (by simpa using h)

theorem strBytes_ascii (s : String) (h : ∀ c ∈ s.data, c.toNat < 128) :
    ∀ b ∈ strBytes s, b < 128 := by
  intro b hb
  simp only [strBytes, charsBytes, List.mem_flatten, List.mem_map] at hb
  obtain ⟨l, ⟨c, hc, rfl⟩, hbl⟩ := hb
  have hcn := h c hc
  simp only [utf8Bytes] at hbl
  rw [if_pos hcn] at hbl
  simp only [List.mem_singleton] at hbl
  omega

theorem parseU16Bytes_eval (bs : List Nat)
    (hb : (containsSeq bs [48, 120] || containsSeq bs [48, 88]) = true →
      ¬(128 ≤ bs.getD 2 0 ∧ bs.getD 2 0 < 192)) :
    parseU16Bytes bs = Except.ok
      (if containsSeq bs [48, 120] || containsSeq bs [48, 88] then
        fromStrRadix 16 65535 (bs.drop 2)
      else fromStrRadix 10 65535 bs) := by
  by_cases hc : (containsSeq bs [48, 120] || containsSeq bs [48, 88]) = true
  · have hlen : 2 ≤ bs.length := by
      have hor := hc
      simp only [Bool.or_eq_true] at hor
      rcases hor with h1 | h1
      · simpa using containsSeq_length bs [48, 120] h1
      · simpa using containsSeq_length bs [48, 88] h1
    have hbyte := hb hc
    simp only [parseU16Bytes]
    rw [if_pos hc, if_pos hlen, if_neg hbyte, if_pos hc]
  · simp only [parseU16Bytes]
    rw [if_neg hc, if_neg hc]

/-- C10 counterexample: `parse_u16` is not total.  On the input
`"€0x"` the string contains `0x`, but byte index 2 falls inside the
three-byte character `€`, so the slice `&input[2..]` panics. -/
theorem claim10_counterexample :
    parseU16 "€0x" = Except.error () := rfl

/-- C10 (amended): `parse_u16` never panics on an input whose byte at
index 2 is not a UTF-8 continuation byte — in particular on every ASCII
string; on such inputs it parses the bytes from index 2 as hexadecimal
when the input contains `0x` or `0X` and the whole input as decimal
otherwise, returning `none` exactly when that `from_str_radix` parse
fails; it panics when byte index 2 falls inside a multi-byte
character. -/
theorem parse_u16_behavior :
    (∀ bs : List Nat,
      ((containsSeq bs [48, 120] || containsSeq bs [48, 88]) = true →
        ¬(128 ≤ bs.getD 2 0 ∧ bs.getD 2 0 < 192)) →
      parseU16Bytes bs = Except.ok
        (if containsSeq bs [48, 120] || containsSeq bs [48, 88] then
          fromStrRadix 16 65535 (bs.drop 2)
        else fromStrRadix 10 65535 bs)) ∧
    (∀ s : String, (∀ c ∈ s.data, c.toNat < 128) →
      parseU16 s ≠ Except.error ()) := by
  constructor
  · exact parseU16Bytes_eval
  · intro s hascii heq
    have hbyte : (containsSeq (strBytes s) [48, 120] ||
        containsSeq (strBytes s) [48, 88]) = true →
        ¬(128 ≤ (strBytes s).getD 2 0 ∧ (strBytes s).getD 2 0 < 192) := by
      intro _
      rintro ⟨hge, -⟩
      have hlt : (strBytes s).getD 2 0 < 128 := by
        by_cases hl : 2 < (strBytes s).length
        · exact strBytes_ascii s hascii _ (getD_mem_of_lt _ 2 0 hl)
        · rw [getD_default_of_le _ 2 0 (by omega)]
          omega
      omega
    have hev := parseU16Bytes_eval (strBytes s) hbyte
    rw [parseU16] at heq
    rw [hev] at heq
    exact Except.noConfusion heq

/-- C10 witness: the amended claim applied to an ASCII input. -/
theorem parse_u16_behavior_witness :
    parseU16 "0x1A" ≠ Except.error () :=
  parse_u16_behavior.2 "0x1A" (by decide)

end Gbc
